import Mathlib

/-!
# Verification of the kivy GridLayout core (src/kivy/uix/gridlayout.py)

A shallow embedding of the grid-layout algorithm.  Python floats are
modelled by exact rationals (`ℚ`); a raised Python exception
(`IndexError`, `TypeError`, `AttributeError`, `ZeroDivisionError`,
`GridLayoutException`) is modelled by `none` / `Option`.  The kivy
`children` list is kept in kivy order (index 0 is the most recently
added child); the source iterates `reversed(self.children)` to obtain
flow order, and so does the embedding.
-/

set_option autoImplicit false

namespace GridLayout

abbrev Num := ℚ

/-- One child widget, as far as the layout core reads/writes it:
`size_hint = (shw, shh)` (either component may be `None`),
`size = (w, h)` and `pos = (x, y)`. -/
structure Item where
  shw : Option Num
  shh : Option Num
  w : Num
  h : Num
  x : Num
  y : Num
deriving DecidableEq

/-- Python truthiness of an optional number (`None` and `0` are falsy). -/
def truthyQ : Option Num → Bool
  | none => false
  | some v => v ≠ 0

/-- Python truthiness of an optional natural (`None` and `0` are falsy). -/
def truthyN : Option Nat → Bool
  | none => false
  | some n => n ≠ 0

/-- `nmax(a, b)` from the source, at the call sites where the first
argument is an optional number and the second is present. -/
def nmaxO (a : Option Num) (b : Num) : Num :=
  match a with
  | none => b
  | some v => max v b

/-- Python `l[i]` read with negative-index wrap-around;
`none` models `IndexError`. -/
def pyGet {α : Type} (l : List α) (i : Int) : Option α :=
  if 0 ≤ i ∧ i < l.length then l.get? i.toNat
  else if -(l.length : Int) ≤ i ∧ i < 0 then l.get? (l.length + i).toNat
  else none

/-- Python `l[i] = v` store with negative-index wrap-around;
`none` models `IndexError`. -/
def pyStore {α : Type} (l : List α) (i : Int) (v : α) : Option (List α) :=
  if 0 ≤ i ∧ i < l.length then some (l.set i.toNat v)
  else if -(l.length : Int) ≤ i ∧ i < 0 then some (l.set (l.length + i).toNat v)
  else none

/-- `for index, value in d.items(): l[index] = value` over a sparse
minimum-size dict (insertion-ordered association list). -/
def applyOverrides (l : List Num) : List (Int × Num) → Option (List Num)
  | [] => some l
  | (k, v) :: rest => do
    let l2 ← pyStore l k v
    applyOverrides l2 rest

/-- List read at a natural index; `none` models `IndexError`. -/
def exGet {α : Type} (l : List α) (i : Nat) : Option α := l.get? i

/-- The grid layout state: configuration properties, geometry, the
children list (kivy order), and the internal per-axis arrays
`self._cols`, `self._rows`, `self._cols_sh`, `self._rows_sh`
(`none` models the attribute being absent / `None`). -/
structure Grid where
  cols : Option Nat
  rows : Option Nat
  col_default_width : Num
  row_default_height : Num
  col_force_default : Bool
  row_force_default : Bool
  cols_minimum : List (Int × Num)
  rows_minimum : List (Int × Num)
  spacing_x : Num
  spacing_y : Num
  padding_l : Num
  padding_t : Num
  padding_r : Num
  padding_b : Num
  x : Num
  y : Num
  width : Num
  height : Num
  children : List Item
  icols : Option (List Num)
  irows : Option (List Num)
  icols_sh : Option (List (Option Num))
  irows_sh : Option (List (Option Num))
  minimum_width : Num
  minimum_height : Num
deriving DecidableEq

/-- Modelled from the spec: the container's top edge used by the flow
placer (`self.top` of the external widget base class) is `y + height`. -/
def Grid.top (g : Grid) : Num := g.y + g.height

/-- `int(ceil(a / float(b)))` for naturals, as exact ceiling division.
The source only divides here when `b` is Python-truthy (nonzero), so
the `b = 0` case is dead code. -/
def ceilDivN (a b : Nat) : Nat := (a + b - 1) / b

/-- `_init_rows_cols_sizes(count)`.  Returns `some (g, false)` for the
unconfigured early return (`None` in Python), `some (g', true)` on
success, and `none` when applying a minimum-size override raises
`IndexError`.  `int(ceil(count / float(n)))` is modelled by the exact
ceiling of the division (see `ceilDivN`). -/
def initRowsColsSizes (g : Grid) (count : Nat) : Option (Grid × Bool) :=
  if ¬ truthyN g.cols ∧ ¬ truthyN g.rows then some (g, false)
  else
    let cc : Int :=
      match g.cols with
      | none => (ceilDivN count (g.rows.getD 0) : Int)
      | some c => (c : Int)
    let rr : Int :=
      match g.cols with
      | none => ((g.rows.getD 0 : Nat) : Int)
      | some c =>
        match g.rows with
        | none => (ceilDivN count c : Int)
        | some r => (r : Int)
    let ncols : Nat := (max 1 cc).toNat
    let nrows : Nat := (max 1 rr).toNat
    match applyOverrides (List.replicate ncols g.col_default_width) g.cols_minimum,
        applyOverrides (List.replicate nrows g.row_default_height) g.rows_minimum with
    | some colsArr, some rowsArr =>
      some ({ g with
        icols := some colsArr
        irows := some rowsArr
        icols_sh := some (List.replicate ncols none)
        irows_sh := some (List.replicate nrows none) }, true)
    | _, _ => none

/-- One step of the `_fill_rows_cols_sizes` loop body for a single
child at flow index `i` (`row, col = divmod(i, n_cols)`); `none`
models `ZeroDivisionError` (`n_cols = 0`) or `IndexError`.  The state
is the quadruple `(cols, rows, cols_sh, rows_sh)`. -/
def fillChild (ncols : Nat)
    (st : List Num × List Num × List (Option Num) × List (Option Num))
    (i : Nat) (c : Item) :
    Option (List Num × List Num × List (Option Num) × List (Option Num)) := do
  if ncols = 0 then none
  else
    let row := i / ncols
    let col := i % ncols
    let (cols, rows, colsSh, rowsSh) := st
    let (cols, colsSh) ←
      match c.shw with
      | none => do
        let cur ← exGet cols col
        pure (cols.set col (max cur c.w), colsSh)
      | some shw => do
        let cur ← exGet colsSh col
        pure (cols, colsSh.set col (some (nmaxO cur shw)))
    match c.shh with
    | none => do
      let cur ← exGet rows row
      pure (cols, rows.set row (max cur c.h), colsSh, rowsSh)
    | some shh => do
      let cur ← exGet rowsSh row
      pure (cols, rows, colsSh, rowsSh.set row (some (nmaxO cur shh)))

/-- Fold a fallible indexed step over a list (the `enumerate` loop). -/
def foldIdx {σ β : Type} (f : σ → Nat → β → Option σ) :
    σ → Nat → List β → Option σ
  | st, _, [] => some st
  | st, i, b :: bs => do
    let st2 ← f st i b
    foldIdx f st2 (i + 1) bs

/-- `_fill_rows_cols_sizes`: iterate `reversed(self.children)` raising
per-column/per-row minimum sizes and stretch maxima; `none` models the
`AttributeError`/`TypeError` when the internal arrays are absent. -/
def fillRowsColsSizes (g : Grid) : Option Grid := do
  match g.icols, g.irows, g.icols_sh, g.irows_sh with
  | some cols, some rows, some colsSh, some rowsSh => do
    let (cols2, rows2, colsSh2, rowsSh2) ←
      foldIdx (fillChild cols.length) (cols, rows, colsSh, rowsSh) 0
        g.children.reverse
    pure { g with
      icols := some cols2
      irows := some rows2
      icols_sh := some colsSh2
      irows_sh := some rowsSh2 }
  | _, _, _, _ => none

/-- `_update_minimum_size`: padding + spacing + sum of cell sizes. -/
def updateMinimumSize (g : Grid) : Option Grid :=
  match g.icols, g.irows with
  | some cols, some rows =>
    some { g with
      minimum_width := g.padding_l + g.padding_r
        + g.spacing_x * (((cols.length : Int) - 1 : Int) : ℚ) + cols.sum
      minimum_height := g.padding_t + g.padding_b
        + g.spacing_y * (((rows.length : Int) - 1 : Int) : ℚ) + rows.sum }
  | _, _ => none

/-- `sum([x for x in cols_sh if x])`: sum of the Python-truthy
(present and nonzero) stretch hints. -/
def weightSum (sh : List (Option Num)) : Num :=
  (((sh.filterMap id).filter (fun v => decide (v ≠ 0))).sum)

/-- The column stretch loop of `_finalize_rows_cols_sizes` (else
branch): `for index, col_stretch in enumerate(cols_sh)`; a falsy
stretch is skipped (`continue`) before `cols[index]` is touched, a
truthy stretch divides by the total weight (`none` models
`ZeroDivisionError`) and adds into `cols[index]` (`none` models
`IndexError` when `cols` is shorter than `cols_sh`). -/
def stretchCols (slack total : Num) :
    List Num → List (Option Num) → Option (List Num)
  | cs, [] => some cs
  | [], sh :: rest =>
    if truthyQ sh then none else stretchCols slack total [] rest
  | c :: cs, sh :: rest =>
    if truthyQ sh then
      if total = 0 then none
      else do
        let tail ← stretchCols slack total cs rest
        pure ((c + slack * sh.getD 0 / total) :: tail)
    else do
      let tail ← stretchCols slack total cs rest
      pure (c :: tail)

/-- The row stretch loop of `_finalize_rows_cols_sizes`:
`for index in range(len(rows))` reading `rows_sh[index]` (`none`
models `IndexError` when `rows_sh` is shorter than `rows`, and
`ZeroDivisionError` on a zero total weight). -/
def stretchRows (slack total : Num) :
    List Num → List (Option Num) → Option (List Num)
  | [], _ => some []
  | _ :: _, [] => none
  | r :: rs, sh :: rest =>
    if truthyQ sh then
      if total = 0 then none
      else do
        let tail ← stretchRows slack total rs rest
        pure ((r + slack * sh.getD 0 / total) :: tail)
    else do
      let tail ← stretchRows slack total rs rest
      pure (r :: tail)

/-- The column half of `_finalize_rows_cols_sizes`: forced default
(fresh defaults plus overrides) or stretch distribution of
`max(0, self.width - self.minimum_width)`. -/
def finalizeColsSizes (g : Grid) : Option (List Num) :=
  match g.icols with
  | some cols =>
    if g.col_force_default then
      applyOverrides (List.replicate cols.length g.col_default_width)
        g.cols_minimum
    else
      match g.icols_sh with
      | some colsSh =>
        stretchCols (max 0 (g.width - g.minimum_width)) (weightSum colsSh)
          cols colsSh
      | none => none
  | none => none

/-- The row half of `_finalize_rows_cols_sizes`. -/
def finalizeRowsSizes (g : Grid) : Option (List Num) :=
  match g.irows with
  | some rows =>
    if g.row_force_default then
      applyOverrides (List.replicate rows.length g.row_default_height)
        g.rows_minimum
    else
      match g.irows_sh with
      | some rowsSh =>
        stretchRows (max 0 (g.height - g.minimum_height)) (weightSum rowsSh)
          rows rowsSh
      | none => none
  | none => none

/-- `_finalize_rows_cols_sizes`: columns first, then rows. -/
def finalizeRowsColsSizes (g : Grid) : Option Grid := do
  let cols2 ← finalizeColsSizes g
  let rows2 ← finalizeRowsSizes g
  pure { g with icols := some cols2, irows := some rows2 }

/-- One emitted placement triple `(i, (x, y), (w, h))`. -/
abbrev PlaceT := Int × (Num × Num) × (Num × Num)

/-- The inner (per-column) loop of `_iterate_layout`; also returns the
final value of the countdown index `i` (`break` when `i < 0`). -/
def iterCols (i : Int) (x ytop rh sx : Num) :
    List Num → List PlaceT × Int
  | [] => ([], i)
  | cw :: rest =>
    if i < 0 then ([], i)
    else
      let (tail, i2) := iterCols (i - 1) (x + cw + sx) ytop rh sx rest
      ((i, (x, ytop - rh), (cw, rh)) :: tail, i2)

/-- The outer (per-row) loop of `_iterate_layout`:
`y -= row_height + spacing_y` after each row. -/
def iterRows (i : Int) (x0 y sx sy : Num) (cols : List Num) :
    List Num → List PlaceT
  | [] => []
  | rh :: rest =>
    let (out, i2) := iterCols i x0 y rh sx cols
    out ++ iterRows i2 x0 (y - (rh + sy)) sx sy cols rest

/-- `_iterate_layout(count)`: emit `(i, pos, size)` triples starting
at `i = count - 1`, from `x + padding_left` and `top - padding_top`. -/
def iterateLayout (g : Grid) (count : Nat) : Option (List PlaceT) :=
  match g.icols, g.irows with
  | some cols, some rows =>
    some (iterRows ((count : Int) - 1) (g.x + g.padding_l)
      (g.top - g.padding_t) g.spacing_x g.spacing_y cols rows)
  | _, _ => none

/-- The per-child write-back of `do_layout`: always set `pos`; set
`width`/`height` only on the axes that carry a size hint. -/
def placeChild (c : Item) (px py w h : Num) : Item :=
  let c2 := { c with x := px, y := py }
  match c2.shw, c2.shh with
  | none, none => c2
  | none, some _ => { c2 with h := h }
  | some _, none => { c2 with w := w }
  | some _, some _ => { c2 with w := w, h := h }

/-- Apply the emitted triples to `children[i]` (Python indexing). -/
def applyPlacement : List Item → List PlaceT → Option (List Item)
  | ch, [] => some ch
  | ch, (i, p, s) :: rest => do
    let c ← pyGet ch i
    let ch2 ← pyStore ch i (placeChild c p.1 p.2 s.1 s.2)
    applyPlacement ch2 rest

/-- `do_layout`: the full pass.  Faithful to the source, the
unconfigured/empty branch sets `minimum_size` from padding but does
NOT return early — the remaining phases still run (and raise when the
internal arrays are absent). -/
def doLayout (g : Grid) : Option Grid := do
  let count := g.children.length
  let (g1, condTrue) ←
    if g.children.isEmpty then some (g, true)
    else do
      let (g2, flag) ← initRowsColsSizes g count
      pure (g2, !flag)
  let g1 :=
    if condTrue then
      { g1 with
        minimum_width := g1.padding_l + g1.padding_r
        minimum_height := g1.padding_t + g1.padding_b }
    else g1
  let g3 ← fillRowsColsSizes g1
  let g4 ← updateMinimumSize g3
  let g5 ← finalizeRowsColsSizes g4
  let triples ← iterateLayout g5 count
  let newChildren ← applyPlacement g5.children triples
  pure { g5 with children := newChildren }

/-- `get_max_widgets`: `rows * cols` when both are Python-truthy. -/
def getMaxWidgets (g : Grid) : Option Nat :=
  match g.cols, g.rows with
  | some c, some r => if c ≠ 0 ∧ r ≠ 0 then some (r * c) else none
  | _, _ => none

/-- `on_children`: true iff the mutated children list overflows the
capacity, i.e. the `GridLayoutException` is raised. -/
def onChildrenRaises (g : Grid) (value : List Item) : Bool :=
  match getMaxWidgets g with
  | some smax => value.length > smax
  | none => false

/-- Modelled from the spec: the external `Widget.add_widget` mutation
site (not under src/).  Per the spec the capacity check runs at
item-set mutation time and a rejected mutation leaves the item
collection unchanged, so a raised check yields no new state. -/
def addWidget (g : Grid) (it : Item) : Option Grid :=
  let newChildren := it :: g.children
  if onChildrenRaises g newChildren then none
  else some { g with children := newChildren }

/-! ## RecycleGridLayout: incremental update and viewport index query -/

/-- A `defaultdict(int)` size histogram: association list from a size
value to its count (absent key reads as 0). -/
abbrev Hist := List (Num × Int)

/-- Read a histogram count (0 when the key is absent). -/
def hget : Hist → Num → Int
  | [], _ => 0
  | p :: rest, k => if p.1 = k then p.2 else hget rest k

/-- Write a histogram count (update the first binding, else append). -/
def hset : Hist → Num → Int → Hist
  | [], k, v => [(k, v)]
  | p :: rest, k, v =>
    if p.1 = k then (k, v) :: rest else p :: hset rest k v

/-- `del h[k]`. -/
def hdel (h : Hist) (k : Num) : Hist :=
  h.filter (fun p => decide (¬ p.1 = k))

/-- One entry of the `changed` batch handed to
`_update_rows_cols_sizes`:
`(index, widget, (w, h), (wn, hn), sh, shn, _, _)`. -/
structure Changed where
  index : Nat
  wid : Nat
  w : Num
  h : Num
  wn : Num
  hn : Num
  sh : Option Num × Option Num
  shn : Option Num × Option Num
deriving DecidableEq

/-- The incremental grid's per-axis state: `self._cols`, `self._rows`,
`self._cols_count`, `self._rows_count`. -/
structure RState where
  cols : List Num
  rows : List Num
  colsCount : List Hist
  rowsCount : List Hist
deriving DecidableEq

/-- The width half of the `_update_rows_cols_sizes` loop body: patch
the column histogram, decide whether to force a full recompute
(`return True`), delete a zeroed key.  Returns
`(return_true, new_state)`; `none` models `IndexError`. -/
def updateOneW (st : RState) (col : Nat) (c : Changed) :
    Option (Bool × RState) := do
  if c.w ≠ c.wn then
    let colW ← exGet st.cols col
    let hist ← exGet st.colsCount col
    let hist := hset hist c.w (hget hist c.w - 1)
    let hist := hset hist c.wn (hget hist c.wn + 1)
    let wasLast := hget hist c.w ≤ 0
    let st := { st with colsCount := st.colsCount.set col hist }
    if (wasLast ∧ colW = c.w) ∨ c.wn > colW then pure (true, st)
    else
      let st :=
        if wasLast then
          { st with colsCount := st.colsCount.set col (hdel hist c.w) }
        else st
      pure (false, st)
  else pure (false, st)

/-- The height half of the `_update_rows_cols_sizes` loop body. -/
def updateOneH (st : RState) (row : Nat) (c : Changed) :
    Option (Bool × RState) := do
  if c.h ≠ c.hn then
    let rowH ← exGet st.rows row
    let hist ← exGet st.rowsCount row
    let hist := hset hist c.h (hget hist c.h - 1)
    let hist := hset hist c.hn (hget hist c.hn + 1)
    let wasLast := hget hist c.h ≤ 0
    let st := { st with rowsCount := st.rowsCount.set row hist }
    if (wasLast ∧ rowH = c.h) ∨ c.hn > rowH then pure (true, st)
    else
      let st :=
        if wasLast then
          { st with rowsCount := st.rowsCount.set row (hdel hist c.h) }
        else st
      pure (false, st)
  else pure (false, st)

/-- One iteration of the `_update_rows_cols_sizes` loop.  Result
`(return_true, new_state, removed_views)`; `none` models
`ZeroDivisionError` (`n_cols = 0`) or `IndexError`. -/
def updateOne (ncols : Nat) (st : RState) (c : Changed) :
    Option (Bool × RState × List Nat) := do
  if c.sh ≠ c.shn then pure (true, st, [])
  else if (c.sh.1 ≠ none ∧ c.w ≠ c.wn) ∨ (c.sh.2 ≠ none ∧ c.h ≠ c.hn) then
    pure (false, st, [c.index])
  else
    if ncols = 0 then none
    else
      let row := c.index / ncols
      let col := c.index % ncols
      let (trigW, st2) ← updateOneW st col c
      if trigW then pure (true, st2, [])
      else do
        let (trigH, st3) ← updateOneH st2 row c
        if trigH then pure (true, st3, [])
        else pure (false, st3, [])

/-- The whole `for ... in changed` loop, accumulating removed views. -/
def updateBatch (ncols : Nat) :
    RState → List Nat → List Changed → Option (Bool × RState × List Nat)
  | st, removed, [] => some (false, st, removed)
  | st, removed, c :: rest => do
    let (trig, st2, rm) ← updateOne ncols st c
    if trig then pure (true, st2, removed ++ rm)
    else updateBatch ncols st2 (removed ++ rm) rest

/-- `_update_rows_cols_sizes(changed)`: `n_cols = len(cols_count)`;
returns `True` (first component) when a full recompute is forced. -/
def updateRowsColsSizes (st : RState) (changed : List Changed) :
    Option (Bool × RState × List Nat) :=
  updateBatch st.colsCount.length st [] changed

/-- The geometry consumed by `get_view_index_at`: the boundary arrays
`self._cols_pos` / `self._rows_pos` (possibly `None`) and the cell
size arrays `self._cols` / `self._rows`. -/
structure RGeom where
  colsPos : Option (List Num)
  rowsPos : Option (List Num)
  cols : List Num
  rows : List Num
deriving DecidableEq

/-- The linear scan `for val in pos[1:]: if coord < val: break` with a
running counter starting at 0, applied here to the tail. -/
def scanIdx (coord : Num) : List Num → Nat
  | [] => 0
  | v :: rest => if coord < v then 0 else 1 + scanIdx coord rest

/-- `get_view_index_at(pos)`: clamp the point to the grid shape and
return `iy * len(cols) + ix` with the scanned row flipped to flow
order. -/
def getViewIndexAt (g : RGeom) (x y : Num) : Nat :=
  match g.colsPos, g.rowsPos with
  | some colPos, some rowPos =>
    if colPos.isEmpty ∨ rowPos.isEmpty then 0
    else
      let ix :=
        if x ≥ colPos.getLastD 0 then g.cols.length - 1
        else scanIdx x colPos.tail
      let iyScan :=
        if y ≥ rowPos.getLastD 0 then g.rows.length - 1
        else scanIdx y rowPos.tail
      let iy := g.rows.length - iyScan - 1
      iy * g.cols.length + ix
  | _, _ => 0

/-! ## Concrete fixtures -/

unseal Rat.add Rat.sub Rat.mul Rat.inv

/-- A child with the given size hint and size, at position `(0, 0)`. -/
def mkItem (shw shh : Option Num) (w h : Num) : Item :=
  ⟨shw, shh, w, h, 0, 0⟩

/-- A freshly constructed grid: no configuration, no children, and the
internal arrays not yet created (as after `__init__`). -/
def baseGrid : Grid :=
  { cols := none, rows := none, col_default_width := 0, row_default_height := 0,
    col_force_default := false, row_force_default := false,
    cols_minimum := [], rows_minimum := [],
    spacing_x := 0, spacing_y := 0,
    padding_l := 0, padding_t := 0, padding_r := 0, padding_b := 0,
    x := 0, y := 0, width := 0, height := 0,
    children := [], icols := none, irows := none,
    icols_sh := none, irows_sh := none,
    minimum_width := 0, minimum_height := 0 }

/-- Fresh grid with neither `cols` nor `rows` set and one child. -/
def gUnconfigured : Grid :=
  { baseGrid with
    children := [mkItem none none 5 5]
    padding_l := 1
    padding_t := 2
    padding_r := 3
    padding_b := 4 }

/-- The C3 scenario: `cols = 2`, four items with `size_hint = (1, 1)`,
container at the origin with size `(200, 100)`, no padding/spacing. -/
def gScenario3 : Grid :=
  { baseGrid with
    cols := some 2
    width := 200
    height := 100
    children := List.replicate 4 (mkItem (some 1) (some 1) 0 0) }

/-- A grid whose `cols`/`rows` were set back to `None` after an earlier
configured pass left internal arrays behind (reachable through the
public property surface, since both properties accept `None`): one
stretch column/row of base size 0 and weight 1, container `100 × 50`. -/
def gStale : Grid :=
  { baseGrid with
    width := 100
    height := 50
    children := [mkItem (some 1) (some 1) 0 0]
    icols := some [0]
    irows := some [0]
    icols_sh := some [some 1]
    irows_sh := some [some 1] }

/-- `cols = 1`, one child, and a sparse column override at index 5 —
outside the resolved column count. -/
def gOobOverride : Grid :=
  { baseGrid with
    cols := some 1
    children := [mkItem none none 5 5]
    cols_minimum := [(5, 10)] }

/-- A `2 × 2` grid already holding 4 children. -/
def gFull2x2 : Grid :=
  { baseGrid with
    cols := some 2
    rows := some 2
    children := List.replicate 4 (mkItem (some 1) (some 1) 0 0) }

/-! ## C1 -/

/-- Claim C1 (code bug): the claim says an unconfigured (`cols` and
`rows` both unset) layout pass sets `minimum_size` to the padding sums,
performs no placement and completes without raising.  On the code, the
unconfigured branch of `do_layout` lacks an early return: the pass
falls through into `_fill_rows_cols_sizes` with the internal arrays
still absent and raises (`AttributeError`/`TypeError` on a fresh
grid).  This theorem evaluates the embedded pass at the failing
input. -/
theorem unconfigured_fallthrough_raises : doLayout gUnconfigured = none := by
  decide

/-! ## C3 -/

/-- Claim C3 (confirmed): with `cols = 2`, four items of
`size_hint = (1, 1)`, container at the origin sized `(200, 100)` and
zero padding/spacing, every item is assigned size `(100, 50)` and the
items in flow order (order of addition, i.e. `reversed(children)`) get
positions `(0, 50), (100, 50), (0, 0), (100, 0)`: flow row 0 is
topmost, `y` grows upward. -/
theorem scenario_cols2_positions_sizes :
    ((doLayout gScenario3).map
      (fun g => g.children.reverse.map (fun c => ((c.x, c.y), (c.w, c.h))))) =
    some [((0, 50), (100, 50)), ((100, 50), (100, 50)),
      ((0, 0), (100, 50)), ((100, 0), (100, 50))] := by
  decide

/-! ## C8 -/

/-- Claim C8 (code bug): the claim says two consecutive full passes
with no external mutation give identical results.  Because the
unconfigured branch of `do_layout` lacks its early return, a grid that
was unconfigured after an earlier configured pass runs the pipeline on
stale arrays: the first pass stretches the arrays in place
(`minimum_width = 0`, columns become `[100]`), and the second pass
recomputes `minimum_width` from the already-stretched arrays, getting
`100` — the two passes disagree on `minimum_size`. -/
theorem stale_pass_not_idempotent :
    ((doLayout gStale).bind
      (fun g2 => (doLayout g2).map
        (fun g3 => (g2.minimum_width, g3.minimum_width)))) = some (0, 100) := by
  decide

/-! ## C5 -/

/-- Claim C5 (confirmed; the mutation site `Widget.add_widget` is
modelled from the spec, the capacity check `on_children` /
`get_max_widgets` is from the source): when both `cols` and `rows` are
explicitly configured (Python-truthy) and the children already fill
`rows * cols` slots, adding another item raises
`GridLayoutException` at the mutation site and publishes no mutated
state — the item collection keeps its previous length. -/
theorem capacity_exceeded_at_mutation (g : Grid) (it : Item) (c r : Nat)
    (hc : g.cols = some c) (hr : g.rows = some r)
    (hc0 : c ≠ 0) (hr0 : r ≠ 0)
    (hlen : r * c ≤ g.children.length) :
    addWidget g it = none := by
  unfold addWidget onChildrenRaises getMaxWidgets
  rw [hc, hr]
  have hcond : (¬ c = 0 ∧ ¬ r = 0) = True := by simp [hc0, hr0]
  simp only [hcond, if_true]
  have hlt : r * c < g.children.length + 1 := by omega
  simp [hlt]

/-- Witness for C5: a `2 × 2` grid holding 4 items rejects a fifth. -/
theorem capacity_exceeded_at_mutation_witness :
    addWidget gFull2x2 (mkItem (some 1) (some 1) 0 0) = none :=
  capacity_exceeded_at_mutation gFull2x2 (mkItem (some 1) (some 1) 0 0) 2 2
    rfl rfl (by decide) (by decide) (by decide)

/-! ## C6 -/

/-- `pyStore` rejects an index outside `[-len, len)`. -/
theorem pyStore_oob {α : Type} (l : List α) (k : Int) (v : α)
    (hk : (l.length : Int) ≤ k ∨ k < -(l.length : Int)) :
    pyStore l k v = none := by
  unfold pyStore
  have h1 : ¬ (0 ≤ k ∧ k < (l.length : Int)) := by omega
  have h2 : ¬ (-(l.length : Int) ≤ k ∧ k < 0) := by omega
  rw [if_neg h1, if_neg h2]

/-- A successful `pyStore` is a `List.set` at some position. -/
theorem pyStore_eq_set {α : Type} {l l2 : List α} {k : Int} {v : α}
    (h : pyStore l k v = some l2) : ∃ t, l2 = l.set t v := by
  unfold pyStore at h
  split at h
  · exact ⟨k.toNat, (Option.some_injective _ h).symm⟩
  · split at h
    · exact ⟨(l.length + k).toNat, (Option.some_injective _ h).symm⟩
    · cases h

/-- A successful `pyStore` preserves the length. -/
theorem pyStore_length {α : Type} {l l2 : List α} {k : Int} {v : α}
    (h : pyStore l k v = some l2) : l2.length = l.length := by
  obtain ⟨t, rfl⟩ := pyStore_eq_set h
  exact l.length_set t v

/-- A successful override application preserves the length. -/
theorem applyOverrides_length {l l2 : List Num} {ov : List (Int × Num)}
    (h : applyOverrides l ov = some l2) : l2.length = l.length := by
  induction ov generalizing l with
  | nil =>
    unfold applyOverrides at h
    exact congrArg List.length (Option.some_injective _ h).symm
  | cons p rest ih =>
    unfold applyOverrides at h
    cases hst : pyStore l p.1 p.2 with
    | none => rw [hst] at h; cases h
    | some lmid =>
      rw [hst] at h
      exact (ih h).trans (pyStore_length hst)

/-- Claim C6, counterexample: a grid with `cols = 1` and a sparse
column override at index 5 makes the layout pass raise (`IndexError`
from `cols[5] = value`), while the claim says out-of-range overrides
are silently inert and never error. -/
theorem oob_override_raises : doLayout gOobOverride = none := by
  decide

/-- Claim C6, amended: a sparse override whose key is outside the
Python-indexable range `[-count, count)` of the resolved axis is not
tolerated: it raises `IndexError` and the pass fails.  A negative key
`-count ≤ k < 0` is not inert either: it is applied Python-style to
slot `count + k`. -/
theorem override_bounds_behavior (l : List Num) (ov : List (Int × Num))
    (k : Int) (v : Num) :
    ((k, v) ∈ ov → (l.length : Int) ≤ k ∨ k < -(l.length : Int) →
      applyOverrides l ov = none) ∧
    (-(l.length : Int) ≤ k → k < 0 →
      applyOverrides l [(k, v)] = some (l.set ((l.length : Int) + k).toNat v)) := by
  constructor
  · intro hmem hk
    induction ov generalizing l with
    | nil => cases hmem
    | cons p rest ih =>
      unfold applyOverrides
      rcases List.mem_cons.1 hmem with heq | htail
      · subst heq
        rw [pyStore_oob l k v hk]
        rfl
      · cases hst : pyStore l p.1 p.2 with
        | none => rfl
        | some lmid =>
          have hlen : lmid.length = l.length := pyStore_length hst
          have hk2 : (lmid.length : Int) ≤ k ∨ k < -(lmid.length : Int) := by
            rw [hlen]; exact hk
          exact ih lmid htail hk2
  · intro h1 h2
    unfold applyOverrides pyStore
    have hno : ¬ (0 ≤ k ∧ k < (l.length : Int)) := by omega
    have hyes : -(l.length : Int) ≤ k ∧ k < 0 := ⟨h1, h2⟩
    rw [if_neg hno, if_pos hyes]
    rfl

/-- Witness for the amended C6: on a three-column axis, key 5 raises
and key `-1` writes slot 2. -/
theorem override_bounds_behavior_witness :
    applyOverrides [1, 2, 3] [((5 : Int), (9 : Num))] = none ∧
    applyOverrides [1, 2, 3] [((-1 : Int), (9 : Num))] = some [1, 2, 9] :=
  ⟨(override_bounds_behavior [1, 2, 3] [((5 : Int), (9 : Num))] 5 9).1
      (by decide) (by decide),
    ((override_bounds_behavior [1, 2, 3] [((5 : Int), (9 : Num))] (-1) 9).2
      (by decide) (by decide)).trans (by decide)⟩

/-! ## C9 -/

/-- Every entry of a successful override application comes from the
base list or from the override dict. -/
theorem applyOverrides_get {l res : List Num} {ov : List (Int × Num)}
    (h : applyOverrides l ov = some res) (i : Nat) (v : Num)
    (hv : res.get? i = some v) :
    l.get? i = some v ∨ ∃ k, (k, v) ∈ ov := by
  induction ov generalizing l with
  | nil =>
    left
    unfold applyOverrides at h
    rw [Option.some_injective _ h]
    exact hv
  | cons p rest ih =>
    unfold applyOverrides at h
    cases hst : pyStore l p.1 p.2 with
    | none => rw [hst] at h; cases h
    | some lmid =>
      rw [hst] at h
      rcases ih h with hmid | ⟨k, hk⟩
      · obtain ⟨t, rfl⟩ := pyStore_eq_set hst
        by_cases hti : t = i
        · subst hti
          rw [List.get?_eq_getElem?, List.getElem?_set_self'] at hmid
          cases hl : l[t]? with
          | none => rw [hl] at hmid; cases hmid
          | some w =>
            rw [hl] at hmid
            right
            refine ⟨p.1, ?_⟩
            have : p.2 = v := Option.some_injective _ hmid
            rw [← this]
            exact List.mem_cons_self p rest
        · left
          rw [List.get?_eq_getElem?, List.getElem?_set_ne hti] at hmid
          rw [List.get?_eq_getElem?]
          exact hmid
      · exact Or.inr ⟨k, List.mem_cons_of_mem p hk⟩

/-- Claim C9 (confirmed): with `col_force_default` set, the finalized
column sizes are independent of the items.  Any two grids sharing the
force flag, default width, override dict and resolved column count
(the lengths of their `_cols` arrays) finalize to identical column
lists — the array contents produced from the items are ignored — and
every final size is the default width or an explicit override value. -/
theorem force_default_cols_independent (g1 g2 : Grid) (c1 c2 : List Num)
    (hf1 : g1.col_force_default = true) (hf2 : g2.col_force_default = true)
    (hd : g1.col_default_width = g2.col_default_width)
    (hm : g1.cols_minimum = g2.cols_minimum)
    (h1 : g1.icols = some c1) (h2 : g2.icols = some c2)
    (hlen : c1.length = c2.length) :
    finalizeColsSizes g1 = finalizeColsSizes g2 ∧
      (∀ res, finalizeColsSizes g1 = some res →
        ∀ i v, res.get? i = some v →
          v = g1.col_default_width ∨ ∃ k, (k, v) ∈ g1.cols_minimum) := by
  constructor
  · unfold finalizeColsSizes
    rw [h1, h2]
    simp only [hf1, hf2, if_true]
    rw [hlen, hd, hm]
  · intro res hres i v hv
    unfold finalizeColsSizes at hres
    rw [h1] at hres
    simp only [hf1, if_true] at hres
    rcases applyOverrides_get hres i v hv with hrep | hmem
    · left
      rw [List.get?_eq_getElem?, List.getElem?_replicate] at hrep
      split at hrep
      · exact (Option.some_injective _ hrep).symm
      · cases hrep
    · exact Or.inr hmem

/-- A force-default grid whose items produced column array `[50, 60]`. -/
def gForce1 : Grid :=
  { baseGrid with
    col_force_default := true
    col_default_width := 7
    cols_minimum := [(0, 3)]
    icols := some [50, 60]
    children := [mkItem none none 50 5] }

/-- A force-default grid with the same spec but entirely different
items (column array `[80, 90]`). -/
def gForce2 : Grid :=
  { baseGrid with
    col_force_default := true
    col_default_width := 7
    cols_minimum := [(0, 3)]
    icols := some [80, 90]
    children := [mkItem none none 80 9, mkItem none none 90 9] }

/-- Witness for C9: the two item collections finalize identically. -/
theorem force_default_cols_independent_witness :
    finalizeColsSizes gForce1 = finalizeColsSizes gForce2 ∧
      finalizeColsSizes gForce1 = some [3, 7] :=
  ⟨(force_default_cols_independent gForce1 gForce2 [50, 60] [80, 90]
      rfl rfl rfl rfl rfl rfl (by decide)).1, by decide⟩

/-! ## C4 -/

/-- The executable ceiling division agrees with the mathematical
ceiling of the exact division. -/
theorem ceilDivN_eq_ceil (a b : Nat) (hb : b ≠ 0) :
    ((ceilDivN a b : Nat) : Int) = Int.ceil ((a : ℚ) / (b : ℚ)) := by
  have hb0 : 0 < b := Nat.pos_of_ne_zero hb
  have hbq : (0 : ℚ) < (b : ℚ) := by exact_mod_cast hb0
  have f1 : ceilDivN a b * b ≤ a + b - 1 := Nat.div_mul_le_self _ _
  have f2 : a + b - 1 < ceilDivN a b * b + b := by
    have h := (Nat.div_lt_iff_lt_mul hb0).mp (Nat.lt_succ_self (ceilDivN a b))
    calc a + b - 1 < (ceilDivN a b + 1) * b := h
    _ = ceilDivN a b * b + b := by ring
  obtain ⟨m, hm⟩ : ∃ m, ceilDivN a b * b = m := ⟨_, rfl⟩
  rw [hm] at f1 f2
  have g1 : a ≤ m := by omega
  have g2 : m < a + b := by omega
  have hq_zb : ((ceilDivN a b : Nat) : ℚ) * (b : ℚ) = (m : ℚ) := by
    exact_mod_cast hm
  symm
  rw [Int.ceil_eq_iff]
  refine ⟨?_, ?_⟩
  · rw [lt_div_iff₀ hbq]
    push_cast
    have hlt : (m : ℚ) - b < a := by
      have : (m : ℚ) < (a : ℚ) + b := by exact_mod_cast g2
      linarith
    calc (((ceilDivN a b : Nat) : ℚ) - 1) * b
        = (m : ℚ) - b := by rw [← hq_zb]; ring
    _ < a := hlt
  · rw [div_le_iff₀ hbq]
    push_cast
    rw [hq_zb]
    exact_mod_cast g1

/-- `1 ≤ ceilDivN n b` whenever `1 ≤ n` and `b ≠ 0`. -/
theorem one_le_ceilDivN (n b : Nat) (hn : 1 ≤ n) (hb : b ≠ 0) :
    1 ≤ ceilDivN n b := by
  have hb0 : 0 < b := Nat.pos_of_ne_zero hb
  unfold ceilDivN
  rw [Nat.le_div_iff_mul_le hb0]
  omega

/-- Claim C4 (confirmed): with `cols` set (to a Python-truthy value)
and `rows` unset (`None`), shape resolution on `n ≥ 1` items yields
exactly `ceil(n / cols)` rows; symmetrically with `rows` set and
`cols` unset; both resolved counts are at least 1. -/
theorem shape_resolution_ceil (g g2 : Grid) (n : Nat) (flag : Bool)
    (hn : 1 ≤ n) :
    (∀ c : Nat, 1 ≤ c → g.cols = some c → g.rows = none →
      initRowsColsSizes g n = some (g2, flag) →
      flag = true ∧
      ∃ colsArr rowsArr, g2.icols = some colsArr ∧ g2.irows = some rowsArr ∧
        colsArr.length = c ∧ 1 ≤ rowsArr.length ∧
        (rowsArr.length : Int) = Int.ceil ((n : ℚ) / (c : ℚ))) ∧
    (∀ r : Nat, 1 ≤ r → g.rows = some r → g.cols = none →
      initRowsColsSizes g n = some (g2, flag) →
      flag = true ∧
      ∃ colsArr rowsArr, g2.icols = some colsArr ∧ g2.irows = some rowsArr ∧
        rowsArr.length = r ∧ 1 ≤ colsArr.length ∧
        (colsArr.length : Int) = Int.ceil ((n : ℚ) / (r : ℚ))) := by
  constructor
  · intro c hc hcols hrows hrun
    have hcnz : c ≠ 0 := by omega
    have hceil1 : 1 ≤ ceilDivN n c := one_le_ceilDivN n c hn hcnz
    unfold initRowsColsSizes at hrun
    rw [hcols, hrows] at hrun
    have hcond : ¬ (¬ truthyN (some c) = true ∧ ¬ truthyN none = true) := by
      intro hfalse
      exact hfalse.1 (by simp [truthyN, hcnz])
    rw [if_neg hcond] at hrun
    have hmax1 : (max 1 ((c : Nat) : Int)).toNat = c := by omega
    have hmax2 : (max 1 ((ceilDivN n c : Nat) : Int)).toNat = ceilDivN n c := by
      omega
    simp only [hmax1, hmax2] at hrun
    cases hov1 : applyOverrides (List.replicate c g.col_default_width)
        g.cols_minimum with
    | none => rw [hov1] at hrun; cases hrun
    | some colsArr =>
      cases hov2 : applyOverrides
          (List.replicate (ceilDivN n c) g.row_default_height)
          g.rows_minimum with
      | none => rw [hov1, hov2] at hrun; cases hrun
      | some rowsArr =>
        rw [hov1, hov2] at hrun
        have hpair := Option.some_injective _ hrun
        have hflag : flag = true := congrArg Prod.snd hpair.symm
        have hg2 : _ = g2 := congrArg Prod.fst hpair
        subst hg2
        refine ⟨hflag, colsArr, rowsArr, rfl, rfl, ?_, ?_, ?_⟩
        · exact (applyOverrides_length hov1).trans
            (List.length_replicate c g.col_default_width)
        · rw [(applyOverrides_length hov2).trans
            (List.length_replicate (ceilDivN n c) g.row_default_height)]
          exact hceil1
        · rw [(applyOverrides_length hov2).trans
            (List.length_replicate (ceilDivN n c) g.row_default_height)]
          exact ceilDivN_eq_ceil n c hcnz
  · intro r hr hrows hcols hrun
    have hrnz : r ≠ 0 := by omega
    have hceil1 : 1 ≤ ceilDivN n r := one_le_ceilDivN n r hn hrnz
    unfold initRowsColsSizes at hrun
    rw [hcols, hrows] at hrun
    have hcond : ¬ (¬ truthyN none = true ∧ ¬ truthyN (some r) = true) := by
      intro hfalse
      exact hfalse.2 (by simp [truthyN, hrnz])
    rw [if_neg hcond] at hrun
    simp only [Option.getD_some] at hrun
    have hmax1 : (max 1 ((ceilDivN n r : Nat) : Int)).toNat = ceilDivN n r := by
      omega
    have hmax2 : (max 1 ((r : Nat) : Int)).toNat = r := by omega
    simp only [hmax1, hmax2] at hrun
    cases hov1 : applyOverrides (List.replicate (ceilDivN n r)
        g.col_default_width) g.cols_minimum with
    | none => rw [hov1] at hrun; cases hrun
    | some colsArr =>
      cases hov2 : applyOverrides (List.replicate r g.row_default_height)
          g.rows_minimum with
      | none => rw [hov1, hov2] at hrun; cases hrun
      | some rowsArr =>
        rw [hov1, hov2] at hrun
        have hpair := Option.some_injective _ hrun
        have hflag : flag = true := congrArg Prod.snd hpair.symm
        have hg2 : _ = g2 := congrArg Prod.fst hpair
        subst hg2
        refine ⟨hflag, colsArr, rowsArr, rfl, rfl, ?_, ?_, ?_⟩
        · exact (applyOverrides_length hov2).trans
            (List.length_replicate r g.row_default_height)
        · rw [(applyOverrides_length hov1).trans
            (List.length_replicate (ceilDivN n r) g.col_default_width)]
          exact hceil1
        · rw [(applyOverrides_length hov1).trans
            (List.length_replicate (ceilDivN n r) g.col_default_width)]
          exact ceilDivN_eq_ceil n r hrnz

/-- A grid configured with `cols = 2` only. -/
def gShape : Grid := { baseGrid with cols := some 2 }

/-- The state `_init_rows_cols_sizes(5)` produces on `gShape`:
2 columns and `ceil(5/2) = 3` rows. -/
def gShapeOut : Grid :=
  { gShape with
    icols := some [0, 0]
    irows := some [0, 0, 0]
    icols_sh := some [none, none]
    irows_sh := some [none, none, none] }

/-- Witness for C4: `cols = 2` and 5 items resolve to 3 rows. -/
theorem shape_resolution_ceil_witness :
    initRowsColsSizes gShape 5 = some (gShapeOut, true) ∧
      (∃ colsArr rowsArr, gShapeOut.icols = some colsArr ∧
        gShapeOut.irows = some rowsArr ∧ colsArr.length = 2 ∧
        1 ≤ rowsArr.length ∧
        (rowsArr.length : Int) = Int.ceil ((5 : ℚ) / (2 : ℚ))) :=
  ⟨by decide,
    ((shape_resolution_ceil gShape gShapeOut 5 true (by decide)).1 2
      (by decide) rfl rfl (by decide)).2⟩

/-! ## C2 -/

/-- Unfolding `weightSum` over a cons cell. -/
theorem weightSum_cons (sh : Option Num) (rest : List (Option Num)) :
    weightSum (sh :: rest) =
      (if truthyQ sh then sh.getD 0 else 0) + weightSum rest := by
  unfold weightSum truthyQ
  cases sh with
  | none => simp
  | some v =>
    by_cases hv : v = 0
    · subst hv; simp
    · simp [List.filterMap_cons, List.filter_cons, hv]

/-- Entries of a successful stretch pass: a falsy stretch slot keeps
its base size, a truthy one gains `slack * weight / total`. -/
theorem stretchCols_get (slack total : Num) (cs : List Num)
    (sh : List (Option Num)) (res : List Num)
    (h : stretchCols slack total cs sh = some res) (i : Nat) :
    (∀ s, sh.get? i = some s → truthyQ s = false →
      res.get? i = cs.get? i) ∧
    (∀ s b, sh.get? i = some s → truthyQ s = true → cs.get? i = some b →
      res.get? i = some (b + slack * s.getD 0 / total)) := by
  induction sh generalizing cs res i with
  | nil =>
    unfold stretchCols at h
    cases cs with
    | nil =>
      have : res = [] := (Option.some_injective _ h).symm
      subst this
      exact ⟨(fun s hs => by cases hs), (fun s b hs => by cases hs)⟩
    | cons c cs' =>
      have : res = c :: cs' := (Option.some_injective _ h).symm
      subst this
      exact ⟨(fun s hs => by cases hs), (fun s b hs => by cases hs)⟩
  | cons s0 rest ih =>
    cases cs with
    | nil =>
      unfold stretchCols at h
      by_cases hs0 : truthyQ s0 = true
      · rw [if_pos hs0] at h; cases h
      · rw [if_neg hs0] at h
        constructor
        · intro s hs hfalse
          cases i with
          | zero =>
            cases hs
            -- res solves stretchCols [] rest; empty base keeps empty
            cases hres : res.get? 0 with
            | none => simp [hres]
            | some v =>
              -- impossible: stretchCols over [] yields []
              exfalso
              have hemp : ∀ sh2 r2, stretchCols slack total [] sh2 = some r2 →
                  r2 = [] := by
                intro sh2
                induction sh2 with
                | nil =>
                  intro r2 h2
                  exact (Option.some_injective _ h2).symm
                | cons a as ihs =>
                  intro r2 h2
                  unfold stretchCols at h2
                  by_cases ha : truthyQ a = true
                  · rw [if_pos ha] at h2; cases h2
                  · rw [if_neg ha] at h2; exact ihs r2 h2
              have := hemp rest res h
              subst this
              cases hres
          | succ j =>
            have hemp : ∀ sh2 r2, stretchCols slack total [] sh2 = some r2 →
                r2 = [] := by
              intro sh2
              induction sh2 with
              | nil =>
                intro r2 h2
                exact (Option.some_injective _ h2).symm
              | cons a as ihs =>
                intro r2 h2
                unfold stretchCols at h2
                by_cases ha : truthyQ a = true
                · rw [if_pos ha] at h2; cases h2
                · rw [if_neg ha] at h2; exact ihs r2 h2
            have := hemp rest res h
            subst this
            rfl
        · intro s b hs htrue hb
          cases i with
          | zero => cases hb
          | succ j => cases hb
    | cons c cs' =>
      unfold stretchCols at h
      by_cases hs0 : truthyQ s0 = true
      · rw [if_pos hs0] at h
        by_cases htot : total = 0
        · rw [if_pos htot] at h; cases h
        · rw [if_neg htot] at h
          cases htail : stretchCols slack total cs' rest with
          | none => rw [htail] at h; cases h
          | some tail =>
            rw [htail] at h
            have hres : res = (c + slack * s0.getD 0 / total) :: tail :=
              (Option.some_injective _ h).symm
            subst hres
            constructor
            · intro s hs hfalse
              cases i with
              | zero => cases hs; rw [hs0] at hfalse; cases hfalse
              | succ j => exact (ih cs' tail htail j).1 s hs hfalse
            · intro s b hs htrue hb
              cases i with
              | zero =>
                cases hs
                cases hb
                rfl
              | succ j => exact (ih cs' tail htail j).2 s b hs htrue hb
      · rw [if_neg hs0] at h
        cases htail : stretchCols slack total cs' rest with
        | none => rw [htail] at h; cases h
        | some tail =>
          rw [htail] at h
          have hres : res = c :: tail := (Option.some_injective _ h).symm
          subst hres
          constructor
          · intro s hs hfalse
            cases i with
            | zero => rfl
            | succ j => exact (ih cs' tail htail j).1 s hs hfalse
          · intro s b hs htrue hb
            cases i with
            | zero => cases hs; exact absurd htrue hs0
            | succ j => exact (ih cs' tail htail j).2 s b hs htrue hb

/-- The total added by a successful stretch pass over equal-length
arrays is `slack * weightSum / total`. -/
theorem stretchCols_sum (slack total : Num) (cs : List Num)
    (sh : List (Option Num)) (res : List Num)
    (hlen : cs.length = sh.length)
    (h : stretchCols slack total cs sh = some res) :
    res.sum = cs.sum + slack * weightSum sh / total := by
  induction sh generalizing cs res with
  | nil =>
    cases cs with
    | nil =>
      unfold stretchCols at h
      have : res = [] := (Option.some_injective _ h).symm
      subst this
      simp [weightSum]
    | cons c cs' => cases hlen
  | cons s0 rest ih =>
    cases cs with
    | nil => cases hlen
    | cons c cs' =>
      have hlen' : cs'.length = rest.length := by
        simpa using hlen
      unfold stretchCols at h
      by_cases hs0 : truthyQ s0 = true
      · rw [if_pos hs0] at h
        by_cases htot : total = 0
        · rw [if_pos htot] at h; cases h
        · rw [if_neg htot] at h
          cases htail : stretchCols slack total cs' rest with
          | none => rw [htail] at h; cases h
          | some tail =>
            rw [htail] at h
            have hres : res = (c + slack * s0.getD 0 / total) :: tail :=
              (Option.some_injective _ h).symm
            subst hres
            have := ih cs' tail hlen' htail
            rw [weightSum_cons, if_pos hs0]
            simp only [List.sum_cons, this]
            ring
      · rw [if_neg hs0] at h
        cases htail : stretchCols slack total cs' rest with
        | none => rw [htail] at h; cases h
        | some tail =>
          rw [htail] at h
          have hres : res = c :: tail := (Option.some_injective _ h).symm
          subst hres
          have := ih cs' tail hlen' htail
          rw [weightSum_cons, if_neg hs0]
          simp only [List.sum_cons, this]
          ring

/-- Over equal-length arrays the row stretch loop computes exactly
what the column stretch loop computes. -/
theorem stretchRows_eq_stretchCols (slack total : Num) (cs : List Num)
    (sh : List (Option Num)) (hlen : cs.length = sh.length) :
    stretchRows slack total cs sh = stretchCols slack total cs sh := by
  induction sh generalizing cs with
  | nil =>
    cases cs with
    | nil => rfl
    | cons c cs' => cases hlen
  | cons s0 rest ih =>
    cases cs with
    | nil => cases hlen
    | cons c cs' =>
      have hlen' : cs'.length = rest.length := by simpa using hlen
      unfold stretchRows stretchCols
      rw [ih cs' hlen']

/-- Claim C2 (confirmed): in the stretch-finalize phase without
force-default, with `slack = max(0, available - minimum)`: slots with
no (Python-truthy) stretch weight keep exactly their base size, each
stretch slot gains exactly `slack * weight / total_weight`, and the
total added over the whole axis equals `slack` exactly (the arithmetic
is exact rational, so "up to rounding" is exact here); symmetrically
for rows. -/
theorem stretch_distribution (availW minW availH minH : Num)
    (cols rows colsRes rowsRes : List Num)
    (colsSh rowsSh : List (Option Num))
    (hwc : weightSum colsSh ≠ 0) (hwr : weightSum rowsSh ≠ 0)
    (hlc : cols.length = colsSh.length) (hlr : rows.length = rowsSh.length)
    (hc : stretchCols (max 0 (availW - minW)) (weightSum colsSh)
      cols colsSh = some colsRes)
    (hr : stretchRows (max 0 (availH - minH)) (weightSum rowsSh)
      rows rowsSh = some rowsRes) :
    (∀ i s, colsSh.get? i = some s → truthyQ s = false →
      colsRes.get? i = cols.get? i) ∧
    (∀ i s b, colsSh.get? i = some s → truthyQ s = true →
      cols.get? i = some b →
      colsRes.get? i =
        some (b + max 0 (availW - minW) * s.getD 0 / weightSum colsSh)) ∧
    colsRes.sum = cols.sum + max 0 (availW - minW) ∧
    (∀ i s, rowsSh.get? i = some s → truthyQ s = false →
      rowsRes.get? i = rows.get? i) ∧
    (∀ i s b, rowsSh.get? i = some s → truthyQ s = true →
      rows.get? i = some b →
      rowsRes.get? i =
        some (b + max 0 (availH - minH) * s.getD 0 / weightSum rowsSh)) ∧
    rowsRes.sum = rows.sum + max 0 (availH - minH) := by
  have hr2 : stretchCols (max 0 (availH - minH)) (weightSum rowsSh)
      rows rowsSh = some rowsRes := by
    rw [← stretchRows_eq_stretchCols _ _ _ _ hlr]
    exact hr
  refine ⟨?_, ?_, ?_, ?_, ?_, ?_⟩
  · intro i s hs hf
    exact (stretchCols_get _ _ _ _ _ hc i).1 s hs hf
  · intro i s b hs ht hb
    exact (stretchCols_get _ _ _ _ _ hc i).2 s b hs ht hb
  · rw [stretchCols_sum _ _ _ _ _ hlc hc, mul_div_assoc,
      div_self hwc, mul_one]
  · intro i s hs hf
    exact (stretchCols_get _ _ _ _ _ hr2 i).1 s hs hf
  · intro i s b hs ht hb
    exact (stretchCols_get _ _ _ _ _ hr2 i).2 s b hs ht hb
  · rw [stretchCols_sum _ _ _ _ _ hlr hr2, mul_div_assoc,
      div_self hwr, mul_one]

/-- Witness for C2, matching the spec scenario: a fixed column of 100
and a stretch column of weight 1 under 200 units of slack; the stretch
column gains all 200, the fixed one keeps its size, and the total
added is the slack. -/
theorem stretch_distribution_witness :
    stretchCols (max 0 ((300 : Num) - 100)) (weightSum [none, some 1])
      [100, 0] [none, some 1] = some [100, 200] ∧
    ([100, 200] : List Num).sum =
      ([100, 0] : List Num).sum + max 0 ((300 : Num) - 100) :=
  ⟨by decide,
    (stretch_distribution 300 100 300 100 [100, 0] [100, 0] [100, 200]
      [100, 200] [none, some 1] [none, some 1] (by decide) (by decide)
      (by decide) (by decide) (by decide) (by decide)).2.2.1⟩

/-! ## C10 -/

/-- The boundary scan advances at most once per scanned boundary. -/
theorem scanIdx_le (coord : Num) (l : List Num) :
    scanIdx coord l ≤ l.length := by
  induction l with
  | nil => exact Nat.le_refl 0
  | cons v rest ih =>
    unfold scanIdx
    by_cases h : coord < v
    · rw [if_pos h]
      exact Nat.zero_le _
    · rw [if_neg h]
      simpa [Nat.add_comm] using Nat.add_le_add_right ih 1

/-- Clamped cell coordinates stay inside the grid. -/
theorem grid_range_bound (R C ix iy : Nat) (hC : 1 ≤ C) (hR : 1 ≤ R)
    (hix : ix ≤ C - 1) (hiy : iy ≤ R - 1) :
    iy * C + ix < R * C := by
  have h1 : iy * C ≤ (R - 1) * C := Nat.mul_le_mul_right C hiy
  have h2 : (R - 1) * C + C = R * C := by
    cases R with
    | zero => omega
    | succ n => simp [Nat.succ_sub_one, Nat.succ_mul]
  calc iy * C + ix ≤ (R - 1) * C + ix := Nat.add_le_add_right h1 ix
  _ ≤ (R - 1) * C + (C - 1) := Nat.add_le_add_left hix _
  _ < (R - 1) * C + C := Nat.add_lt_add_left (by omega) _
  _ = R * C := h2

/-- Claim C10 (confirmed): after a completed layout pass has produced
nonempty boundary arrays matching the cell arrays (`r` rows, `c`
columns), `get_view_index_at` maps every point into `[0, r*c)` — the
result is clamped to the grid shape, not to the item count, so on a
partially filled last row it can reach indices at or beyond the item
count and callers must range-check it. -/
theorem view_index_in_grid_range (g : RGeom) (cp rp : List Num)
    (hcp : g.colsPos = some cp) (hrp : g.rowsPos = some rp)
    (hcne : cp ≠ []) (hrne : rp ≠ [])
    (hlc : cp.length = g.cols.length) (hlr : rp.length = g.rows.length)
    (x y : Num) :
    getViewIndexAt g x y < g.rows.length * g.cols.length := by
  obtain ⟨c0, cp', rfl⟩ : ∃ a l, cp = a :: l := by
    cases cp with
    | nil => exact absurd rfl hcne
    | cons a l => exact ⟨a, l, rfl⟩
  obtain ⟨r0, rp', rfl⟩ : ∃ a l, rp = a :: l := by
    cases rp with
    | nil => exact absurd rfl hrne
    | cons a l => exact ⟨a, l, rfl⟩
  have hC : 1 ≤ g.cols.length := by
    rw [← hlc]; simp
  have hR : 1 ≤ g.rows.length := by
    rw [← hlr]; simp
  have hcp' : cp'.length = g.cols.length - 1 := by
    simp only [List.length_cons] at hlc
    omega
  have hrp' : rp'.length = g.rows.length - 1 := by
    simp only [List.length_cons] at hlr
    omega
  simp only [getViewIndexAt, hcp, hrp, List.isEmpty_cons, Bool.false_eq_true,
    or_self, if_false, List.tail_cons]
  apply grid_range_bound _ _ _ _ hC hR
  · split
    · exact Nat.le_refl _
    · rw [← hcp']
      exact scanIdx_le x cp'
  · omega

/-- Boundary geometry of a 2-column, 2-row grid (as `compute_layout`
builds it for a `200 × 100` container at the origin holding 3 items):
column boundaries `[0, 100]`, row boundaries `[0, 50]`. -/
def gGeom : RGeom := ⟨some [0, 100], some [0, 50], [100, 100], [50, 50]⟩

/-- Witness for C10: the bottom-right point maps to cell index 3,
inside `[0, 4)` but at/above the 3-item count. -/
theorem view_index_in_grid_range_witness :
    getViewIndexAt gGeom 150 10 < 2 * 2 ∧ getViewIndexAt gGeom 150 10 = 3 :=
  ⟨view_index_in_grid_range gGeom [0, 100] [0, 50] rfl rfl (by decide)
      (by decide) (by decide) (by decide) 150 10,
    by decide⟩

/-! ## C7 -/

/-- Reading after a histogram write. -/
theorem hget_hset (h : Hist) (k k2 : Num) (v : Int) :
    hget (hset h k v) k2 = if k2 = k then v else hget h k2 := by
  induction h with
  | nil =>
    by_cases hk : k2 = k
    · subst hk; simp [hget, hset]
    · have hne : ¬ (k = k2) := fun he => hk he.symm
      simp [hget, hset, hk, hne]
  | cons p rest ih =>
    unfold hset
    by_cases hpk : p.1 = k
    · rw [if_pos hpk]
      by_cases hk2 : k2 = k
      · subst hk2; simp [hget]
      · have hne : ¬ (k = k2) := fun he => hk2 he.symm
        have hne2 : ¬ (p.1 = k2) := by rw [hpk]; exact hne
        simp [hget, hne, hne2, hk2]
    · rw [if_neg hpk]
      by_cases hp2 : p.1 = k2
      · have hk2 : ¬ (k2 = k) := fun he => hpk (hp2.trans he)
        simp [hget, hp2, hk2]
      · simp [hget, hp2, ih]

/-- Reading after a histogram delete. -/
theorem hget_hdel (h : Hist) (k k2 : Num) :
    hget (hdel h k) k2 = if k2 = k then 0 else hget h k2 := by
  induction h with
  | nil =>
    simp only [hdel, List.filter_nil, hget]
    split <;> rfl
  | cons p rest ih =>
    unfold hdel at ih ⊢
    simp only [decide_not] at ih ⊢
    by_cases hpk : p.1 = k
    · rw [List.filter_cons, if_neg (by simp [hpk])]
      rw [ih]
      by_cases hk2 : k2 = k
      · rw [if_pos hk2, if_pos hk2]
      · have hp2 : ¬ (p.1 = k2) := fun he => hk2 (he.symm.trans hpk)
        rw [if_neg hk2, if_neg hk2]
        simp [hget, hp2]
    · rw [List.filter_cons, if_pos (by simp [hpk])]
      by_cases hp2 : p.1 = k2
      · have hk2 : ¬ (k2 = k) := fun he => hpk (hp2.trans he)
        simp [hget, hp2, hk2]
      · simp [hget, hp2, ih]

/-- `getD` after `set` at the written slot. -/
theorem getD_set_self {α : Type} (l : List α) (i : Nat) (x d : α)
    (h : i < l.length) : (l.set i x).getD i d = x := by
  simp [List.getD_eq_getElem?_getD, List.getElem?_set, h]

/-- `getD` after `set` at a different slot. -/
theorem getD_set_ne {α : Type} (l : List α) (i j : Nat) (x d : α)
    (hij : j ≠ i) : (l.set i x).getD j d = l.getD j d := by
  have hne : ¬ (i = j) := fun he => hij he.symm
  simp [List.getD_eq_getElem?_getD, List.getElem?_set, hne]

/-- A changed item takes the histogram-patch path: its hint pair is
unchanged and no hinted axis changed size (which would remove the
view instead). -/
def patchesHist (c : Changed) : Prop :=
  c.sh = c.shn ∧
    ¬ ((c.sh.1 ≠ none ∧ c.w ≠ c.wn) ∨ (c.sh.2 ≠ none ∧ c.h ≠ c.hn))

instance (c : Changed) : Decidable (patchesHist c) := by
  unfold patchesHist
  infer_instance

/-- The net count change one changed item contributes to the histogram
of column `col` at size value `v`. -/
def deltaOneCol (ncols : Nat) (c : Changed) (col : Nat) (v : Num) : Int :=
  if patchesHist c ∧ col = c.index % ncols ∧ c.w ≠ c.wn then
    (if c.wn = v then 1 else 0) - (if c.w = v then 1 else 0)
  else 0

/-- The net count change one changed item contributes to the histogram
of row `row` at size value `v`. -/
def deltaOneRow (ncols : Nat) (c : Changed) (row : Nat) (v : Num) : Int :=
  if patchesHist c ∧ row = c.index / ncols ∧ c.h ≠ c.hn then
    (if c.hn = v then 1 else 0) - (if c.h = v then 1 else 0)
  else 0

/-- The net count change of a whole batch. -/
def colDelta (ncols : Nat) (chs : List Changed) (col : Nat) (v : Num) : Int :=
  (chs.map (fun c => deltaOneCol ncols c col v)).sum

/-- The net count change of a whole batch, row side. -/
def rowDelta (ncols : Nat) (chs : List Changed) (row : Nat) (v : Num) : Int :=
  (chs.map (fun c => deltaOneRow ncols c row v)).sum

/-- The state is consistent for one change: a patched old value is
actually present in its histogram (which holds whenever the
histograms were built by `_fill_rows_cols_sizes` from the live
items). -/
def safeOne (ncols : Nat) (st : RState) (c : Changed) : Prop :=
  (patchesHist c → c.w ≠ c.wn →
    1 ≤ hget (st.colsCount.getD (c.index % ncols) []) c.w) ∧
  (patchesHist c → c.h ≠ c.hn →
    1 ≤ hget (st.rowsCount.getD (c.index / ncols) []) c.h)

instance (ncols : Nat) (st : RState) (c : Changed) :
    Decidable (safeOne ncols st c) := by
  unfold safeOne
  infer_instance

/-- Consistency along the whole batch run. -/
def batchSafe (ncols : Nat) : RState → List Changed → Bool
  | _, [] => true
  | st, c :: rest =>
    decide (safeOne ncols st c) &&
      (match updateOne ncols st c with
       | some (false, st2, _) => batchSafe ncols st2 rest
       | _ => true)

/-- Pointwise effect of the decrement/increment pair on a histogram. -/
theorem hist_patch_pointwise (hist : Hist) (w wn : Num) (hwn : ¬ w = wn)
    (v : Num) :
    hget (hset (hset hist w (hget hist w - 1)) wn
        (hget (hset hist w (hget hist w - 1)) wn + 1)) v =
      hget hist v + ((if wn = v then 1 else 0) - (if w = v then 1 else 0)) := by
  have hwn' : ¬ wn = w := fun he => hwn he.symm
  have h1wn : hget (hset hist w (hget hist w - 1)) wn = hget hist wn := by
    rw [hget_hset, if_neg hwn']
  by_cases hvwn : v = wn
  · subst hvwn
    rw [hget_hset, if_pos rfl, h1wn, if_pos rfl, if_neg hwn]
    omega
  · by_cases hvw : v = w
    · subst hvw
      rw [hget_hset, if_neg hvwn, hget_hset, if_pos rfl, if_neg hwn',
        if_pos rfl]
      omega
    · rw [hget_hset, if_neg hvwn, hget_hset, if_neg hvw,
        if_neg (fun he : wn = v => hvwn he.symm),
        if_neg (fun he : w = v => hvw he.symm)]
      omega

/-- Writing one slot of a histogram array changes counts only there,
and there exactly by the given per-value difference. -/
theorem hget_set_pointwise (counts : List Hist) (col : Nat)
    (newh hist : Hist) (hlt : col < counts.length)
    (hgetD : counts.getD col [] = hist) (D : Num → Int)
    (hpt : ∀ v, hget newh v = hget hist v + D v) (col2 : Nat) (v : Num) :
    hget ((counts.set col newh).getD col2 []) v =
      hget (counts.getD col2 []) v + (if col2 = col then D v else 0) := by
  by_cases hc2 : col2 = col
  · subst hc2
    rw [getD_set_self _ _ _ _ hlt, hgetD, if_pos rfl, hpt]
  · rw [getD_set_ne _ _ _ _ _ hc2, if_neg hc2]
    omega

/-- The width half of one update step, on the no-recompute path:
`cols`, `rows` and the row histograms are untouched, and the column
histograms change exactly by the decrement/increment of the item's
old/new width in its column (a zeroed key is deleted, which reads back
as count 0 = old count minus one thanks to the safety hypothesis). -/
theorem updateOneW_spec (st st2 : RState) (col : Nat) (c : Changed)
    (h : updateOneW st col c = some (false, st2))
    (hsafe : c.w ≠ c.wn → 1 ≤ hget (st.colsCount.getD col []) c.w) :
    st2.cols = st.cols ∧ st2.rows = st.rows ∧
    st2.rowsCount = st.rowsCount ∧
    st2.colsCount.length = st.colsCount.length ∧
    (∀ col2 v, hget (st2.colsCount.getD col2 []) v =
      hget (st.colsCount.getD col2 []) v +
        (if col2 = col ∧ c.w ≠ c.wn then
          (if c.wn = v then 1 else 0) - (if c.w = v then 1 else 0)
        else 0)) := by
  unfold updateOneW at h
  by_cases hwn : c.w ≠ c.wn
  · rw [if_pos hwn] at h
    cases hcw : exGet st.cols col with
    | none => rw [hcw] at h; cases h
    | some colW =>
      rw [hcw] at h
      cases hh : exGet st.colsCount col with
      | none => rw [hh] at h; cases h
      | some hist =>
        rw [hh] at h
        simp only [Option.pure_def, Option.bind_eq_bind, Option.some_bind] at h
        have hcol_lt : col < st.colsCount.length := by
          unfold exGet at hh
          exact (List.get?_eq_some.mp hh).1
        have hgetD : st.colsCount.getD col [] = hist := by
          unfold exGet at hh
          rw [List.get?_eq_getElem?] at hh
          simp [List.getD_eq_getElem?_getD, hh]
        have hsafe1 : 1 ≤ hget hist c.w := by
          rw [← hgetD]
          exact hsafe hwn
        set hist2 := hset (hset hist c.w (hget hist c.w - 1)) c.wn
          (hget (hset hist c.w (hget hist c.w - 1)) c.wn + 1) with hh2
        have hpp : ∀ v, hget hist2 v =
            hget hist v +
              ((if c.wn = v then 1 else 0) - (if c.w = v then 1 else 0)) :=
          hist_patch_pointwise hist c.w c.wn hwn
        have hiff : ∀ col2 : Nat,
            (col2 = col ∧ c.w ≠ c.wn) ↔ (col2 = col) := by
          intro col2
          constructor
          · exact And.left
          · exact fun hc2 => ⟨hc2, hwn⟩
        by_cases htrig : (hget hist2 c.w ≤ 0 ∧ colW = c.w) ∨ c.wn > colW
        · rw [if_pos htrig] at h
          have hfst := congrArg Prod.fst (Option.some_injective _ h)
          simp at hfst
        · rw [if_neg htrig] at h
          have hinj := Option.some_injective _ h
          have hst2 : st2 = _ := (congrArg Prod.snd hinj).symm
          by_cases hlast : hget hist2 c.w ≤ 0
          · rw [if_pos hlast] at hst2
            rw [List.set_set] at hst2
            have hw_eq_one : hget hist c.w = 1 := by
              have := hpp c.w
              rw [if_neg (fun he : c.wn = c.w => hwn he.symm),
                if_pos rfl] at this
              omega
            subst hst2
            refine ⟨rfl, rfl, rfl, by simp, ?_⟩
            intro col2 v
            have hptD : ∀ v2, hget (hdel hist2 c.w) v2 =
                hget hist v2 +
                  ((if c.wn = v2 then 1 else 0) -
                    (if c.w = v2 then 1 else 0)) := by
              intro v2
              rw [hget_hdel]
              by_cases hv2 : v2 = c.w
              · subst hv2
                rw [if_pos rfl, if_neg (fun he : c.wn = c.w => hwn he.symm),
                  if_pos rfl]
                omega
              · rw [if_neg hv2]
                exact hpp v2
            have := hget_set_pointwise st.colsCount col (hdel hist2 c.w) hist
              hcol_lt hgetD _ hptD col2 v
            simp only at this ⊢
            rw [this]
            by_cases hc2 : col2 = col
            · rw [if_pos hc2, if_pos ((hiff col2).mpr hc2)]
            · rw [if_neg hc2, if_neg (fun hand => hc2 ((hiff col2).mp hand))]
          · rw [if_neg hlast] at hst2
            subst hst2
            refine ⟨rfl, rfl, rfl, by simp, ?_⟩
            intro col2 v
            have := hget_set_pointwise st.colsCount col hist2 hist
              hcol_lt hgetD _ hpp col2 v
            simp only at this ⊢
            rw [this]
            by_cases hc2 : col2 = col
            · rw [if_pos hc2, if_pos ((hiff col2).mpr hc2)]
            · rw [if_neg hc2, if_neg (fun hand => hc2 ((hiff col2).mp hand))]
  · rw [if_neg hwn] at h
    have hinj := Option.some_injective _ h
    have hst2 : st2 = st := (congrArg Prod.snd hinj).symm
    subst hst2
    refine ⟨rfl, rfl, rfl, rfl, ?_⟩
    intro col2 v
    rw [if_neg (fun hand => hwn hand.2)]
    omega

/-- The height half of one update step, on the no-recompute path:
mirror image of `updateOneW_spec` acting on the row histograms. -/
theorem updateOneH_spec (st st2 : RState) (row : Nat) (c : Changed)
    (h : updateOneH st row c = some (false, st2))
    (hsafe : c.h ≠ c.hn → 1 ≤ hget (st.rowsCount.getD row []) c.h) :
    st2.cols = st.cols ∧ st2.rows = st.rows ∧
    st2.colsCount = st.colsCount ∧
    st2.rowsCount.length = st.rowsCount.length ∧
    (∀ row2 v, hget (st2.rowsCount.getD row2 []) v =
      hget (st.rowsCount.getD row2 []) v +
        (if row2 = row ∧ c.h ≠ c.hn then
          (if c.hn = v then 1 else 0) - (if c.h = v then 1 else 0)
        else 0)) := by
  unfold updateOneH at h
  by_cases hhn : c.h ≠ c.hn
  · rw [if_pos hhn] at h
    cases hcw : exGet st.rows row with
    | none => rw [hcw] at h; cases h
    | some rowH =>
      rw [hcw] at h
      cases hh : exGet st.rowsCount row with
      | none => rw [hh] at h; cases h
      | some hist =>
        rw [hh] at h
        simp only [Option.pure_def, Option.bind_eq_bind, Option.some_bind] at h
        have hrow_lt : row < st.rowsCount.length := by
          unfold exGet at hh
          exact (List.get?_eq_some.mp hh).1
        have hgetD : st.rowsCount.getD row [] = hist := by
          unfold exGet at hh
          rw [List.get?_eq_getElem?] at hh
          simp [List.getD_eq_getElem?_getD, hh]
        have hsafe1 : 1 ≤ hget hist c.h := by
          rw [← hgetD]
          exact hsafe hhn
        set hist2 := hset (hset hist c.h (hget hist c.h - 1)) c.hn
          (hget (hset hist c.h (hget hist c.h - 1)) c.hn + 1) with hh2
        have hpp : ∀ v, hget hist2 v =
            hget hist v +
              ((if c.hn = v then 1 else 0) - (if c.h = v then 1 else 0)) :=
          hist_patch_pointwise hist c.h c.hn hhn
        have hiff : ∀ row2 : Nat,
            (row2 = row ∧ c.h ≠ c.hn) ↔ (row2 = row) := by
          intro row2
          constructor
          · exact And.left
          · exact fun hr2 => ⟨hr2, hhn⟩
        by_cases htrig : (hget hist2 c.h ≤ 0 ∧ rowH = c.h) ∨ c.hn > rowH
        · rw [if_pos htrig] at h
          have hfst := congrArg Prod.fst (Option.some_injective _ h)
          simp at hfst
        · rw [if_neg htrig] at h
          have hinj := Option.some_injective _ h
          have hst2 : st2 = _ := (congrArg Prod.snd hinj).symm
          by_cases hlast : hget hist2 c.h ≤ 0
          · rw [if_pos hlast] at hst2
            rw [List.set_set] at hst2
            have hw_eq_one : hget hist c.h = 1 := by
              have := hpp c.h
              rw [if_neg (fun he : c.hn = c.h => hhn he.symm),
                if_pos rfl] at this
              omega
            subst hst2
            refine ⟨rfl, rfl, rfl, by simp, ?_⟩
            intro row2 v
            have hptD : ∀ v2, hget (hdel hist2 c.h) v2 =
                hget hist v2 +
                  ((if c.hn = v2 then 1 else 0) -
                    (if c.h = v2 then 1 else 0)) := by
              intro v2
              rw [hget_hdel]
              by_cases hv2 : v2 = c.h
              · subst hv2
                rw [if_pos rfl, if_neg (fun he : c.hn = c.h => hhn he.symm),
                  if_pos rfl]
                omega
              · rw [if_neg hv2]
                exact hpp v2
            have := hget_set_pointwise st.rowsCount row (hdel hist2 c.h) hist
              hrow_lt hgetD _ hptD row2 v
            simp only at this ⊢
            rw [this]
            by_cases hr2 : row2 = row
            · rw [if_pos hr2, if_pos ((hiff row2).mpr hr2)]
            · rw [if_neg hr2, if_neg (fun hand => hr2 ((hiff row2).mp hand))]
          · rw [if_neg hlast] at hst2
            subst hst2
            refine ⟨rfl, rfl, rfl, by simp, ?_⟩
            intro row2 v
            have := hget_set_pointwise st.rowsCount row hist2 hist
              hrow_lt hgetD _ hpp row2 v
            simp only at this ⊢
            rw [this]
            by_cases hr2 : row2 = row
            · rw [if_pos hr2, if_pos ((hiff row2).mpr hr2)]
            · rw [if_neg hr2, if_neg (fun hand => hr2 ((hiff row2).mp hand))]
  · rw [if_neg hhn] at h
    have hinj := Option.some_injective _ h
    have hst2 : st2 = st := (congrArg Prod.snd hinj).symm
    subst hst2
    refine ⟨rfl, rfl, rfl, rfl, ?_⟩
    intro row2 v
    rw [if_neg (fun hand => hhn hand.2)]
    omega

/-- One update-loop iteration on the no-recompute path: bases are
untouched and both histogram families change exactly by the item's
per-slot delta. -/
theorem updateOne_spec (ncols : Nat) (st st2 : RState) (c : Changed)
    (rm : List Nat)
    (h : updateOne ncols st c = some (false, st2, rm))
    (hsafe : safeOne ncols st c) :
    st2.cols = st.cols ∧ st2.rows = st.rows ∧
    st2.colsCount.length = st.colsCount.length ∧
    st2.rowsCount.length = st.rowsCount.length ∧
    (∀ col v, hget (st2.colsCount.getD col []) v =
      hget (st.colsCount.getD col []) v + deltaOneCol ncols c col v) ∧
    (∀ row v, hget (st2.rowsCount.getD row []) v =
      hget (st.rowsCount.getD row []) v + deltaOneRow ncols c row v) := by
  unfold updateOne at h
  by_cases hsh : c.sh ≠ c.shn
  · rw [if_pos hsh] at h
    have hfst := congrArg Prod.fst (Option.some_injective _ h)
    simp at hfst
  · rw [if_neg hsh] at h
    by_cases hrem : (c.sh.1 ≠ none ∧ c.w ≠ c.wn) ∨ (c.sh.2 ≠ none ∧ c.h ≠ c.hn)
    · rw [if_pos hrem] at h
      have hinj := Option.some_injective _ h
      have hst2 : st2 = st := (congrArg (fun p => p.2.1) hinj).symm
      subst hst2
      have hnp : ¬ patchesHist c := fun hp => hp.2 hrem
      refine ⟨rfl, rfl, rfl, rfl, ?_, ?_⟩
      · intro col v
        unfold deltaOneCol
        rw [if_neg (fun hand => hnp hand.1)]
        omega
      · intro row v
        unfold deltaOneRow
        rw [if_neg (fun hand => hnp hand.1)]
        omega
    · rw [if_neg hrem] at h
      by_cases hnc : ncols = 0
      · rw [if_pos hnc] at h
        cases h
      · rw [if_neg hnc] at h
        simp only [Option.pure_def, Option.bind_eq_bind] at h
        have hp : patchesHist c := ⟨not_not.mp hsh, hrem⟩
        cases hw : updateOneW st (c.index % ncols) c with
        | none =>
          rw [hw] at h
          cases h
        | some pW =>
          obtain ⟨trigW, stW⟩ := pW
          rw [hw] at h
          simp only [Option.pure_def, Option.bind_eq_bind,
            Option.some_bind] at h
          by_cases htrw : trigW = true
          · rw [if_pos htrw] at h
            have hfst := congrArg (fun p => p.1) (Option.some_injective _ h)
            simp at hfst
          · rw [if_neg htrw] at h
            have htrwf : trigW = false := by
              cases trigW
              · rfl
              · exact absurd rfl htrw
            rw [htrwf] at hw
            have hW := updateOneW_spec st stW (c.index % ncols) c hw
              (fun hwne => hsafe.1 hp hwne)
            cases hhm : updateOneH stW (c.index / ncols) c with
            | none =>
              rw [hhm] at h
              cases h
            | some pH =>
              obtain ⟨trigH, stH⟩ := pH
              rw [hhm] at h
              simp only [Option.pure_def, Option.bind_eq_bind,
                Option.some_bind] at h
              by_cases htrh : trigH = true
              · rw [if_pos htrh] at h
                have hfst := congrArg (fun p => p.1)
                  (Option.some_injective _ h)
                simp at hfst
              · rw [if_neg htrh] at h
                have htrhf : trigH = false := by
                  cases trigH
                  · rfl
                  · exact absurd rfl htrh
                rw [htrhf] at hhm
                have hinj := Option.some_injective _ h
                have hst2 : st2 = stH :=
                  (congrArg (fun p => p.2.1) hinj).symm
                subst hst2
                have hH := updateOneH_spec stW st2 (c.index / ncols) c hhm
                  (by
                    intro hhne
                    rw [hW.2.2.1]
                    exact hsafe.2 hp hhne)
                refine ⟨hH.1.trans hW.1, hH.2.1.trans hW.2.1, ?_, ?_, ?_, ?_⟩
                · rw [hH.2.2.1]
                  exact hW.2.2.2.1
                · rw [hH.2.2.2.1, hW.2.2.1]
                · intro col v
                  rw [hH.2.2.1, hW.2.2.2.2 col v]
                  unfold deltaOneCol
                  by_cases hcond : col = c.index % ncols ∧ c.w ≠ c.wn
                  · have hcond3 : patchesHist c ∧ col = c.index % ncols ∧
                        c.w ≠ c.wn := ⟨hp, hcond.1, hcond.2⟩
                    rw [if_pos hcond, if_pos hcond3]
                  · have hcond3 : ¬ (patchesHist c ∧ col = c.index % ncols ∧
                        c.w ≠ c.wn) := fun hand => hcond ⟨hand.2.1, hand.2.2⟩
                    rw [if_neg hcond, if_neg hcond3]
                · intro row v
                  rw [hH.2.2.2.2 row v, hW.2.2.1]
                  unfold deltaOneRow
                  by_cases hcond : row = c.index / ncols ∧ c.h ≠ c.hn
                  · have hcond3 : patchesHist c ∧ row = c.index / ncols ∧
                        c.h ≠ c.hn := ⟨hp, hcond.1, hcond.2⟩
                    rw [if_pos hcond, if_pos hcond3]
                  · have hcond3 : ¬ (patchesHist c ∧ row = c.index / ncols ∧
                        c.h ≠ c.hn) := fun hand => hcond ⟨hand.2.1, hand.2.2⟩
                    rw [if_neg hcond, if_neg hcond3]

/-- The whole batch loop on the no-recompute path patches exactly the
per-item deltas and touches nothing else. -/
theorem updateBatch_patch (ncols : Nat) (chs : List Changed) :
    ∀ st racc st2 rm, batchSafe ncols st chs = true →
      updateBatch ncols st racc chs = some (false, st2, rm) →
      st2.cols = st.cols ∧ st2.rows = st.rows ∧
      st2.colsCount.length = st.colsCount.length ∧
      st2.rowsCount.length = st.rowsCount.length ∧
      (∀ col v, hget (st2.colsCount.getD col []) v =
        hget (st.colsCount.getD col []) v + colDelta ncols chs col v) ∧
      (∀ row v, hget (st2.rowsCount.getD row []) v =
        hget (st.rowsCount.getD row []) v + rowDelta ncols chs row v) := by
  induction chs with
  | nil =>
    intro st racc st2 rm hsafe hrun
    unfold updateBatch at hrun
    have hinj := Option.some_injective _ hrun
    have hst2 : st2 = st := (congrArg (fun p => p.2.1) hinj).symm
    subst hst2
    refine ⟨rfl, rfl, rfl, rfl, ?_, ?_⟩
    · intro col v
      unfold colDelta
      simp
    · intro row v
      unfold rowDelta
      simp
  | cons c rest ih =>
    intro st racc st2 rm hsafe hrun
    unfold batchSafe at hsafe
    rw [Bool.and_eq_true] at hsafe
    have hsafe1 : safeOne ncols st c := of_decide_eq_true hsafe.1
    unfold updateBatch at hrun
    cases hone : updateOne ncols st c with
    | none => rw [hone] at hrun; cases hrun
    | some p =>
      obtain ⟨trig, stm, rmm⟩ := p
      rw [hone] at hrun
      simp only [Option.pure_def, Option.bind_eq_bind,
        Option.some_bind] at hrun
      by_cases htr : trig = true
      · rw [if_pos htr] at hrun
        have hfst := congrArg (fun p => p.1) (Option.some_injective _ hrun)
        simp at hfst
      · rw [if_neg htr] at hrun
        have htrf : trig = false := by
          cases trig
          · rfl
          · exact absurd rfl htr
        rw [htrf] at hone
        have hsafe2 : batchSafe ncols stm rest = true := by
          have hmatch := hsafe.2
          rw [hone] at hmatch
          exact hmatch
        have hstep := updateOne_spec ncols st stm c rmm hone hsafe1
        have hrec := ih stm (racc ++ rmm) st2 rm hsafe2 hrun
        refine ⟨hrec.1.trans hstep.1, hrec.2.1.trans hstep.2.1,
          hrec.2.2.1.trans hstep.2.2.1, hrec.2.2.2.1.trans hstep.2.2.2.1,
          ?_, ?_⟩
        · intro col v
          rw [hrec.2.2.2.2.1 col v, hstep.2.2.2.2.1 col v]
          unfold colDelta
          simp only [List.map_cons, List.sum_cons]
          omega
        · intro row v
          rw [hrec.2.2.2.2.2 row v, hstep.2.2.2.2.2 row v]
          unfold rowDelta
          simp only [List.map_cons, List.sum_cons]
          omega

/-- The incremental grid state of a `1 × 1` grid whose single slot
holds two items of fixed size 5: base sizes 10, histograms
`{5 ↦ 2}`. -/
def stIncr : RState := ⟨[10], [10], [[(5, 2)]], [[(5, 2)]]⟩

/-- A change whose stretch-hint PRESENCE is unchanged on both axes
(present on x, absent on y) and whose sizes are unchanged — only the
hint value moves from 1 to 2. -/
def chHintValue : Changed :=
  ⟨0, 0, 5, 5, 5, 5, (some 1, none), (some 2, none)⟩

/-- Claim C7, counterexample: per the claim, a batch with no
stretch-hint presence change and no fixed-length change triggers no
full recompute and is handled by histogram patching.  The code instead
forces a full recompute (`return True`) on ANY hint change, including
a pure value change with unchanged presence. -/
theorem hint_value_change_forces_recompute :
    (chHintValue.sh.1.isSome = chHintValue.shn.1.isSome ∧
      chHintValue.sh.2.isSome = chHintValue.shn.2.isSome ∧
      chHintValue.w = chHintValue.wn ∧ chHintValue.h = chHintValue.hn) ∧
    updateRowsColsSizes stIncr [chHintValue] = some (true, stIncr, []) := by
  decide

/-- Claim C7, amended: the full-recompute trigger for hints is any
change of the hint pair (value or presence).  For every batch in which
the run reports that the full pipeline can be skipped (returns
`False`), given histogram consistency (`batchSafe`), the update leaves
every column/row base size untouched (and never reads the stretch
weights at all) and changes the histograms exactly by decrementing
each patched item's old length and incrementing its new length. -/
theorem incremental_patch_only (st st2 : RState) (chs : List Changed)
    (rm : List Nat)
    (hsafe : batchSafe st.colsCount.length st chs = true)
    (hrun : updateRowsColsSizes st chs = some (false, st2, rm)) :
    st2.cols = st.cols ∧ st2.rows = st.rows ∧
    (∀ col v, hget (st2.colsCount.getD col []) v =
      hget (st.colsCount.getD col []) v +
        colDelta st.colsCount.length chs col v) ∧
    (∀ row v, hget (st2.rowsCount.getD row []) v =
      hget (st.rowsCount.getD row []) v +
        rowDelta st.colsCount.length chs row v) := by
  have h := updateBatch_patch st.colsCount.length chs st [] st2 rm hsafe hrun
  exact ⟨h.1, h.2.1, h.2.2.2.2.1, h.2.2.2.2.2⟩

/-- A pure fixed-size change 5 → 7 below the slot base size 10, with
another item still claiming size 5. -/
def chFixed : Changed := ⟨0, 0, 5, 5, 7, 7, (none, none), (none, none)⟩

/-- The state after patching `chFixed` into `stIncr`. -/
def stIncrAfter : RState :=
  ⟨[10], [10], [[(5, 1), (7, 1)]], [[(5, 1), (7, 1)]]⟩

/-- Witness for the amended C7: the patch run reports skip, keeps the
bases, and moves one count from 5 to 7. -/
theorem incremental_patch_only_witness :
    updateRowsColsSizes stIncr [chFixed] = some (false, stIncrAfter, []) ∧
    stIncrAfter.cols = stIncr.cols ∧
    hget (stIncrAfter.colsCount.getD 0 []) 5 =
      hget (stIncr.colsCount.getD 0 []) 5 +
        colDelta stIncr.colsCount.length [chFixed] 0 5 :=
  ⟨by decide,
    (incremental_patch_only stIncr stIncrAfter [chFixed] []
      (by decide) (by decide)).1,
    (incremental_patch_only stIncr stIncrAfter [chFixed] []
      (by decide) (by decide)).2.2.1 0 5⟩

end GridLayout
